import Mathlib

/-!
# Verification of the Scribe audio-transcribe-summarize frontend

Shallow embedding of the Backend Client (`src/lib/api.ts`-style module) and the
Recorder/Uploader size check of the Scribe single-page application, together
with proofs about the incremental stream event parser (`transcribeStream`),
the block dispatcher (`emitEvent`), `healthCheck`, `transcribe`, `summarize`
and `handleFileSelect`.

Text is modelled as `List Char` (JavaScript strings, after decoding).  The
stream of reads delivered by `response.body.getReader()` is modelled as the
list of decoded text chunks; `JSON.parse` / `JSON.stringify` are modelled by
an executable JSON parser / serializer over an inductive `Json` type in which
numbers are kept in exact decimal form (mantissa × 10^exponent).
-/

namespace Scribe

set_option maxRecDepth 16384

/-- Characters of a string literal: text chunks are modelled as lists of characters. -/
def chars (s : String) : List Char := s.toList

/-- Index of the first occurrence of the two-character sequence `"\n\n"` in a
string (JS `buffer.indexOf("\n\n")`, with `none` standing for `-1`). -/
def findBlankLine : List Char → Option Nat
  | [] => none
  | [_] => none
  | a :: b :: rest =>
    if a = '\n' ∧ b = '\n' then some 0
    else (findBlankLine (b :: rest)).map (· + 1)

theorem findBlankLine_some_le : ∀ {s : List Char} {i : Nat},
    findBlankLine s = some i → i + 2 ≤ s.length
  | [], _, h => by simp [findBlankLine] at h
  | [_], _, h => by simp [findBlankLine] at h
  | a :: b :: rest, i, h => by
    by_cases hab : a = '\n' ∧ b = '\n'
    · simp [findBlankLine, hab] at h
      subst h
      simp
    · cases hfb : findBlankLine (b :: rest) with
      | none => simp [findBlankLine, if_neg hab, hfb] at h
      | some j =>
        simp only [findBlankLine, if_neg hab, hfb, Option.map_some',
          Option.some.injEq] at h
        subst h
        have := findBlankLine_some_le hfb
        simp only [List.length_cons] at this ⊢
        omega

theorem findBlankLine_append_some : ∀ {s : List Char} {i : Nat},
    findBlankLine s = some i → ∀ t, findBlankLine (s ++ t) = some i
  | [], _, h => by simp [findBlankLine] at h
  | [_], _, h => by simp [findBlankLine] at h
  | a :: b :: rest, i, h => by
    intro t
    by_cases hab : a = '\n' ∧ b = '\n'
    · simp [findBlankLine, hab] at h ⊢
      exact h
    · cases hfb : findBlankLine (b :: rest) with
      | none => simp [findBlankLine, if_neg hab, hfb] at h
      | some j =>
        simp only [findBlankLine, if_neg hab, hfb, Option.map_some',
          Option.some.injEq] at h
        subst h
        have := findBlankLine_append_some hfb t
        simp only [List.cons_append, findBlankLine, if_neg hab]
        rw [List.cons_append] at this
        simp [this]

/-- The block-extraction loop of `transcribeStream`
(`src/lib/api.ts`, the `while (idx !== -1)` loop):

```
let idx = buffer.indexOf("\n\n");
while (idx !== -1) {
  const block = buffer.slice(0, idx);
  buffer = buffer.slice(idx + 2);
  emitEvent(block);
  idx = buffer.indexOf("\n\n");
}
```

returns the list of complete blocks extracted (in order) together with the
remaining buffer.  The fuel argument only bounds the iteration count: each
round removes at least two characters, so `s.length` rounds always suffice. -/
def extractBlocksFuel : Nat → List Char → List (List Char) × List Char
  | 0, s => ([], s)
  | fuel + 1, s =>
    match findBlankLine s with
    | none => ([], s)
    | some idx =>
      let p := extractBlocksFuel fuel (s.drop (idx + 2))
      (s.take idx :: p.1, p.2)

/-- The block-extraction loop of `transcribeStream` on a buffer. -/
def extractBlocks (s : List Char) : List (List Char) × List Char :=
  extractBlocksFuel s.length s

theorem findBlankLine_short {s : List Char} (h : s.length ≤ 1) :
    findBlankLine s = none := by
  match s with
  | [] => rfl
  | [_] => rfl
  | _ :: _ :: _ => simp at h

theorem extractBlocksFuel_succ_eq (f : Nat) (s : List Char) :
    extractBlocksFuel (f + 1) s =
      match findBlankLine s with
      | none => ([], s)
      | some idx =>
        (s.take idx :: (extractBlocksFuel f (s.drop (idx + 2))).1,
         (extractBlocksFuel f (s.drop (idx + 2))).2) := rfl

theorem extractBlocksFuel_succ : ∀ (f : Nat) (s : List Char),
    s.length ≤ 2 * f + 1 → extractBlocksFuel (f + 1) s = extractBlocksFuel f s
  | 0, s, h => by
    have hfb := findBlankLine_short (s := s) (by omega)
    rw [extractBlocksFuel_succ_eq, hfb]
    rfl
  | f + 1, s, h => by
    rw [extractBlocksFuel_succ_eq (f + 1) s, extractBlocksFuel_succ_eq f s]
    cases hfb : findBlankLine s with
    | none => rfl
    | some i =>
      have hi := findBlankLine_some_le hfb
      have hrec := extractBlocksFuel_succ f (s.drop (i + 2))
        (by simp only [List.length_drop]; omega)
      simp only [hrec]

theorem extractBlocksFuel_of_le : ∀ (g f : Nat) (s : List Char),
    s.length ≤ 2 * f + 1 → f ≤ g → extractBlocksFuel g s = extractBlocksFuel f s
  | 0, f, s, _, hle => by
    have : f = 0 := by omega
    rw [this]
  | g + 1, f, s, h, hle => by
    by_cases hf : f = g + 1
    · rw [hf]
    · have hfg : f ≤ g := by omega
      rw [extractBlocksFuel_succ g s (by omega)]
      exact extractBlocksFuel_of_le g f s h hfg

theorem extractBlocks_none {s : List Char} (h : findBlankLine s = none) :
    extractBlocks s = ([], s) := by
  show extractBlocksFuel s.length s = ([], s)
  cases hl : s.length with
  | zero => simp [extractBlocksFuel]
  | succ n => simp [extractBlocksFuel, h]

theorem extractBlocks_some {s : List Char} {i : Nat} (h : findBlankLine s = some i) :
    extractBlocks s =
      (s.take i :: (extractBlocks (s.drop (i + 2))).1,
       (extractBlocks (s.drop (i + 2))).2) := by
  have hi := findBlankLine_some_le h
  show extractBlocksFuel s.length s = _
  obtain ⟨n, hn⟩ : ∃ n, s.length = n + 1 := ⟨s.length - 1, by omega⟩
  rw [hn]
  have hfuel : extractBlocksFuel n (s.drop (i + 2)) = extractBlocks (s.drop (i + 2)) := by
    show _ = extractBlocksFuel (s.drop (i + 2)).length (s.drop (i + 2))
    exact extractBlocksFuel_of_le n (s.drop (i + 2)).length (s.drop (i + 2))
      (by omega) (by simp only [List.length_drop]; omega)
  simp only [extractBlocksFuel, h, hfuel]

/-- The remaining buffer after extraction never contains a blank-line separator. -/
theorem extractBlocks_rest_none (s : List Char) :
    findBlankLine (extractBlocks s).2 = none := by
  cases h : findBlankLine s with
  | none => rw [extractBlocks_none h]; exact h
  | some i =>
    rw [extractBlocks_some h]
    exact extractBlocks_rest_none (s.drop (i + 2))
termination_by s.length
decreasing_by
  have := findBlankLine_some_le h
  simp only [List.length_drop]
  omega

/-- Compositionality of block extraction: extracting from `a ++ b` first yields
the blocks of `a`, then the blocks of the leftover of `a` glued to `b`. -/
theorem extractBlocks_append (a b : List Char) :
    extractBlocks (a ++ b) =
      ((extractBlocks a).1 ++ (extractBlocks ((extractBlocks a).2 ++ b)).1,
       (extractBlocks ((extractBlocks a).2 ++ b)).2) := by
  cases h : findBlankLine a with
  | none =>
    rw [extractBlocks_none h]
    simp
  | some i =>
    have hi := findBlankLine_some_le h
    have hab : findBlankLine (a ++ b) = some i := findBlankLine_append_some h b
    rw [extractBlocks_some h, extractBlocks_some hab]
    rw [List.take_append_of_le_length (by omega),
        List.drop_append_of_le_length (by omega)]
    have ih := extractBlocks_append (a.drop (i + 2)) b
    rw [ih]
    simp
termination_by a.length
decreasing_by
  have := findBlankLine_some_le h
  simp only [List.length_drop]
  omega

/-! ## JSON values and `JSON.parse`

`JSON.parse` / `JSON.stringify` are JavaScript built-ins used by the client;
they are modelled by an executable parser over an inductive `Json` type.
Numbers are kept in exact decimal form `mantissa × 10 ^ exponent`
(e.g. `1.5` is `num 15 (-1)`, `0` is `num 0 0`); object fields keep their
textual order. -/

/-- JSON values as produced by `JSON.parse`. -/
inductive Json where
  | null : Json
  | bool (b : Bool) : Json
  | num (mantissa : Int) (exponent : Int) : Json
  | str (s : List Char) : Json
  | arr (elems : List Json) : Json
  | obj (fields : List (List Char × Json)) : Json

/-- JSON whitespace accepted by `JSON.parse` between tokens. -/
def isJsonWs (c : Char) : Bool := c = ' ' || c = '\t' || c = '\n' || c = '\r'

def skipWs : List Char → List Char
  | [] => []
  | c :: rest => if isJsonWs c then skipWs rest else c :: rest

/-- Value of a hexadecimal digit, for `\uXXXX` escapes. -/
def hexVal (c : Char) : Option Nat :=
  if c.isDigit then some (c.toNat - '0'.toNat)
  else if 'a' ≤ c ∧ c ≤ 'f' then some (c.toNat - 'a'.toNat + 10)
  else if 'A' ≤ c ∧ c ≤ 'F' then some (c.toNat - 'A'.toNat + 10)
  else none

/-- Parse the body of a JSON string (the opening quote already consumed),
returning the decoded characters and the input after the closing quote.
The fuel argument only bounds recursion; `input.length + 1` always suffices
since every recursive call consumes at least one character. -/
def parseStringBody : Nat → List Char → Option (List Char × List Char)
  | 0, _ => none
  | _, [] => none
  | fuel + 1, c :: rest =>
    if c = '"' then some ([], rest)
    else if c = '\\' then
      match rest with
      | [] => none
      | e :: rest2 =>
        if e = '"' then (parseStringBody fuel rest2).map (fun p => ('"' :: p.1, p.2))
        else if e = '\\' then (parseStringBody fuel rest2).map (fun p => ('\\' :: p.1, p.2))
        else if e = '/' then (parseStringBody fuel rest2).map (fun p => ('/' :: p.1, p.2))
        else if e = 'b' then (parseStringBody fuel rest2).map (fun p => ('\x08' :: p.1, p.2))
        else if e = 'f' then (parseStringBody fuel rest2).map (fun p => ('\x0c' :: p.1, p.2))
        else if e = 'n' then (parseStringBody fuel rest2).map (fun p => ('\n' :: p.1, p.2))
        else if e = 'r' then (parseStringBody fuel rest2).map (fun p => ('\r' :: p.1, p.2))
        else if e = 't' then (parseStringBody fuel rest2).map (fun p => ('\t' :: p.1, p.2))
        else if e = 'u' then
          match rest2 with
          | h1 :: h2 :: h3 :: h4 :: rest3 =>
            match hexVal h1, hexVal h2, hexVal h3, hexVal h4 with
            | some a, some b, some c2, some d =>
              (parseStringBody fuel rest3).map
                (fun p => (Char.ofNat (((a * 16 + b) * 16 + c2) * 16 + d) :: p.1, p.2))
            | _, _, _, _ => none
          | _ => none
        else none
    else if c.toNat < 0x20 then none
    else (parseStringBody fuel rest).map (fun p => (c :: p.1, p.2))

/-- Split the longest run of leading decimal digits from the input. -/
def takeDigits : List Char → List Char × List Char
  | [] => ([], [])
  | c :: rest =>
    if c.isDigit then
      let p := takeDigits rest
      (c :: p.1, p.2)
    else ([], c :: rest)

def digitsToNat (ds : List Char) : Nat :=
  ds.foldl (fun n c => n * 10 + (c.toNat - '0'.toNat)) 0

/-- Parse a JSON number (grammar `-? (0 | [1-9][0-9]*) frac? exp?`) into its
exact decimal value `(mantissa, exponent)` and the remaining input. -/
def parseNumber (s : List Char) : Option ((Int × Int) × List Char) :=
  let signSplit : Bool × List Char :=
    match s with
    | '-' :: r => (true, r)
    | _ => (false, s)
  let neg := signSplit.1
  let s1 := signSplit.2
  let ip := takeDigits s1
  if ip.1 = [] then none
  else if ip.1.length > 1 ∧ ip.1.headI = '0' then none
  else
    let fracStep : Option (Nat × Int × List Char) :=
      match ip.2 with
      | '.' :: r =>
        let fp := takeDigits r
        if fp.1 = [] then none
        else some (digitsToNat (ip.1 ++ fp.1), -(fp.1.length : Int), fp.2)
      | _ => some (digitsToNat ip.1, 0, ip.2)
    match fracStep with
    | none => none
    | some (m1, e1, s3) =>
      let signedM : Int := if neg then -(m1 : Int) else (m1 : Int)
      match s3 with
      | 'e' :: r =>
        let es : Int × List Char :=
          match r with
          | '+' :: r2 => (1, r2)
          | '-' :: r2 => (-1, r2)
          | _ => (1, r)
        let ep := takeDigits es.2
        if ep.1 = [] then none
        else some ((signedM, e1 + es.1 * (digitsToNat ep.1 : Int)), ep.2)
      | 'E' :: r =>
        let es : Int × List Char :=
          match r with
          | '+' :: r2 => (1, r2)
          | '-' :: r2 => (-1, r2)
          | _ => (1, r)
        let ep := takeDigits es.2
        if ep.1 = [] then none
        else some ((signedM, e1 + es.1 * (digitsToNat ep.1 : Int)), ep.2)
      | _ => some ((signedM, e1), s3)

mutual

/-- Parse one JSON value. Fuel decreases on every (mutual) recursive call;
`2 * input.length + 4` always suffices. -/
def parseValue : Nat → List Char → Option (Json × List Char)
  | 0, _ => none
  | fuel + 1, s =>
    match skipWs s with
    | 'n' :: 'u' :: 'l' :: 'l' :: r => some (.null, r)
    | 't' :: 'r' :: 'u' :: 'e' :: r => some (.bool true, r)
    | 'f' :: 'a' :: 'l' :: 's' :: 'e' :: r => some (.bool false, r)
    | '"' :: r =>
      (parseStringBody (r.length + 1) r).map (fun p => (Json.str p.1, p.2))
    | '[' :: r =>
      match skipWs r with
      | ']' :: r2 => some (.arr [], r2)
      | _ => (parseElems fuel r).map (fun p => (Json.arr p.1, p.2))
    | '{' :: r =>
      match skipWs r with
      | '}' :: r2 => some (.obj [], r2)
      | _ => (parseMembers fuel r).map (fun p => (Json.obj p.1, p.2))
    | other => (parseNumber other).map (fun p => (Json.num p.1.1 p.1.2, p.2))

/-- Parse one or more comma-separated array elements up to the closing `]`. -/
def parseElems : Nat → List Char → Option (List Json × List Char)
  | 0, _ => none
  | fuel + 1, s =>
    match parseValue fuel s with
    | none => none
    | some (v, r) =>
      match skipWs r with
      | ',' :: r2 =>
        match parseElems fuel r2 with
        | none => none
        | some (vs, r3) => some (v :: vs, r3)
      | ']' :: r2 => some ([v], r2)
      | _ => none

/-- Parse one or more comma-separated object members up to the closing `}`. -/
def parseMembers : Nat → List Char → Option (List (List Char × Json) × List Char)
  | 0, _ => none
  | fuel + 1, s =>
    match skipWs s with
    | '"' :: r =>
      match parseStringBody (r.length + 1) r with
      | none => none
      | some (key, r2) =>
        match skipWs r2 with
        | ':' :: r3 =>
          match parseValue fuel r3 with
          | none => none
          | some (v, r4) =>
            match skipWs r4 with
            | ',' :: r5 =>
              match parseMembers fuel r5 with
              | none => none
              | some (ms, r6) => some ((key, v) :: ms, r6)
            | '}' :: r5 => some ([(key, v)], r5)
            | _ => none
        | _ => none
    | _ => none

end

/-- Model of `JSON.parse` on a whole string: one value, optionally surrounded by
whitespace; anything else is a syntax error (`none`). -/
def jsonParse (s : List Char) : Option Json :=
  match parseValue (2 * s.length + 4) s with
  | some (j, r) => if skipWs r = [] then some j else none
  | none => none

/-! ## JavaScript string helpers used by `emitEvent` -/

/-- JS `String.prototype.split` with a single-character separator. -/
def splitOnChar (sep : Char) : List Char → List (List Char)
  | [] => [[]]
  | c :: rest =>
    if c = sep then [] :: splitOnChar sep rest
    else
      match splitOnChar sep rest with
      | s :: ss => (c :: s) :: ss
      | [] => [[c]]

/-- The characters removed by JS `String.prototype.trim`
(ECMAScript WhiteSpace and LineTerminator code points). -/
def jsWhitespace (c : Char) : Bool :=
  ([0x9, 0xA, 0xB, 0xC, 0xD, 0x20, 0xA0, 0x1680,
    0x2000, 0x2001, 0x2002, 0x2003, 0x2004, 0x2005, 0x2006, 0x2007,
    0x2008, 0x2009, 0x200A, 0x2028, 0x2029, 0x202F, 0x205F, 0x3000,
    0xFEFF] : List Nat).contains c.toNat

/-- JS `String.prototype.trim`. -/
def jsTrim (s : List Char) : List Char :=
  ((s.dropWhile jsWhitespace).reverse.dropWhile jsWhitespace).reverse

/-- Last-wins field lookup on a parsed JSON value, as JS property access on the
object `JSON.parse` builds (duplicate keys: the last occurrence wins);
`none` is JS `undefined` (non-objects have no such property). -/
def jsGetField (j : Json) (key : List Char) : Option Json :=
  match j with
  | .obj fields => (fields.reverse.find? (fun f => decide (f.1 = key))).map (·.2)
  | _ => none

/-- JS truthiness of a value produced by `JSON.parse`. -/
def jsTruthy : Json → Bool
  | .null => false
  | .bool b => b
  | .num m _ => decide (m ≠ 0)
  | .str s => decide (s ≠ [])
  | .arr _ => true
  | .obj _ => true

/-- The value `parsed.message || "Stream error"` passed to `onError`.
`none` when the property access itself throws (`parsed` is `null`; the
`TypeError` is swallowed by the surrounding `catch`). -/
def errorMessageValue (j : Json) : Option Json :=
  match j with
  | .null => none
  | .obj fields =>
    match ((fields.reverse.find? (fun f => decide (f.1 = chars "message"))).map (·.2)) with
    | some v => some (if jsTruthy v then v else .str (chars "Stream error"))
    | none => some (.str (chars "Stream error"))
  | _ => some (.str (chars "Stream error"))

/-! ## `emitEvent` and the read loop of `transcribeStream` -/

/-- A handler invocation performed by the stream parser: which caller-supplied
handler is called, and the decoded payload it receives. -/
inductive HandlerCall where
  | onStart (data : Json)
  | onChunk (data : Json)
  | onComplete (data : Json)
  | onError (message : Json)

/-- The `event`/`data` accumulation loop of `emitEvent`:

```
const lines = block.split("\n").filter((l) => l.trim().length > 0);
let event = "message";
let data = "";
for (const line of lines) {
  if (line.startsWith("event:")) event = line.slice(6).trim();
  else if (line.startsWith("data:")) data += line.slice(5).trim();
}
```
-/
def blockFields (block : List Char) : List Char × List Char :=
  let lines := (splitOnChar '\n' block).filter (fun l => (jsTrim l).length > 0)
  lines.foldl
    (fun (ed : List Char × List Char) line =>
      if (chars "event:").isPrefixOf line then (jsTrim (line.drop 6), ed.2)
      else if (chars "data:").isPrefixOf line then (ed.1, ed.2 ++ jsTrim (line.drop 5))
      else ed)
    (chars "message", [])

/-- The `emitEvent` closure of `transcribeStream`: dissect one blank-line-delimited block,
JSON-decode its accumulated data payload and dispatch to the matching handler.
Returns the handler invocation the block produces, if any (`none` covers the
`if (!data) return`, the swallowed `JSON.parse` / property-access exceptions,
and unrecognized event names). -/
def emitEvent (block : List Char) : Option HandlerCall :=
  let ed := blockFields block
  let event := ed.1
  let data := ed.2
  if data = [] then none
  else
    match jsonParse data with
    | none => none
    | some parsed =>
      if event = chars "start" then some (.onStart parsed)
      else if event = chars "chunk" then some (.onChunk parsed)
      else if event = chars "complete" then some (.onComplete parsed)
      else if event = chars "error" then (errorMessageValue parsed).map .onError
      else none

/-- One `reader.read()` iteration of `transcribeStream`: append the decoded
chunk to the rolling buffer, then split off and dispatch every complete block. -/
def transcribeStreamStep (buffer chunk : List Char) : List HandlerCall × List Char :=
  let p := extractBlocks (buffer ++ chunk)
  (p.1.filterMap emitEvent, p.2)

/-- The whole `while (true)` read loop of `transcribeStream`, starting from
buffer `buf` and fed the decoded reads until `done`; returns every handler
invocation in order.  When the stream ends the remaining buffer is dropped. -/
def transcribeStreamLoop (buf : List Char) : List (List Char) → List HandlerCall
  | [] => []
  | chunk :: rest =>
    let p := transcribeStreamStep buf chunk
    p.1 ++ transcribeStreamLoop p.2 rest

/-- All handler invocations `transcribeStream` performs on a response body
delivered as the given sequence of reads (the buffer starts as `""`). -/
def transcribeStreamCalls (reads : List (List Char)) : List HandlerCall :=
  transcribeStreamLoop [] reads

/-! ## The stream parser's behaviour, and claims C1–C5, C10 -/

/-- Running the read loop from a buffer that holds no complete block emits
exactly the events of the fully-terminated blocks of `buf ++` all reads. -/
theorem transcribeStreamLoop_eq_flatten (buf : List Char)
    (hbuf : findBlankLine buf = none) (reads : List (List Char)) :
    transcribeStreamLoop buf reads =
      (extractBlocks (buf ++ reads.flatten)).1.filterMap emitEvent := by
  induction reads generalizing buf with
  | nil =>
    simp [transcribeStreamLoop, extractBlocks_none hbuf]
  | cons c rest ih =>
    have h2 := extractBlocks_rest_none (buf ++ c)
    have hih := ih (extractBlocks (buf ++ c)).2 h2
    simp only [transcribeStreamLoop, transcribeStreamStep]
    rw [hih, List.flatten_cons, ← List.append_assoc,
        extractBlocks_append (buf ++ c) rest.flatten, List.filterMap_append]

/-- C1: chunk-boundary independence of the stream parser — for every finite
text stream and every way of splitting it into a sequence of non-empty reads,
`transcribeStream`'s parsing loop (rolling buffer, blank-line-delimited
blocks) invokes the same handlers with the same decoded payloads in the same
order as when the identical concatenated content is delivered in one single
read. -/
theorem transcribeStream_chunk_boundary_independent (reads : List (List Char))
    (_hne : ∀ c ∈ reads, c ≠ []) :
    transcribeStreamCalls reads = transcribeStreamCalls [reads.flatten] := by
  show transcribeStreamLoop [] reads = transcribeStreamLoop [] [reads.flatten]
  rw [transcribeStreamLoop_eq_flatten [] rfl reads,
      transcribeStreamLoop_eq_flatten [] rfl [reads.flatten]]
  simp

theorem transcribeStream_chunk_boundary_independent_witness :
    (∀ c ∈ [chars "event:chunk\ndata:\x7b\"in", chars "dex\":0,\"total\":2,\"text\":\"a\"\x7d\n\nevent:co",
        chars "mplete\ndata:\x7b\"transcript\":\"a\",\"duration\":1.5\x7d\n\n"], c ≠ []) ∧
    transcribeStreamCalls [chars "event:chunk\ndata:\x7b\"in",
        chars "dex\":0,\"total\":2,\"text\":\"a\"\x7d\n\nevent:co",
        chars "mplete\ndata:\x7b\"transcript\":\"a\",\"duration\":1.5\x7d\n\n"] =
      transcribeStreamCalls [List.flatten [chars "event:chunk\ndata:\x7b\"in",
        chars "dex\":0,\"total\":2,\"text\":\"a\"\x7d\n\nevent:co",
        chars "mplete\ndata:\x7b\"transcript\":\"a\",\"duration\":1.5\x7d\n\n"]] :=
  ⟨by decide, transcribeStream_chunk_boundary_independent _ (by decide)⟩

/-- C2: when the stream delivers the block `event:chunk` with data
`{"index":0,"total":2,"text":"a"}` followed by the block `event:complete`
with data `{"transcript":"a","duration":1.5}` (each terminated by a blank
line), `transcribeStream` invokes `onChunk` with that chunk payload and then
`onComplete` with that completion payload, in that order and with no other
handler invocation. -/
theorem transcribeStream_dispatch_example :
    transcribeStreamCalls [chars "event:chunk\ndata:\x7b\"index\":0,\"total\":2,\"text\":\"a\"\x7d\n\n",
        chars "event:complete\ndata:\x7b\"transcript\":\"a\",\"duration\":1.5\x7d\n\n"] =
      [HandlerCall.onChunk (.obj [(chars "index", .num 0 0), (chars "total", .num 2 0),
         (chars "text", .str (chars "a"))]),
       HandlerCall.onComplete (.obj [(chars "transcript", .str (chars "a")),
         (chars "duration", .num 15 (-1))])] := rfl

/-- C3: a block whose accumulated data payload is empty (in particular a block
with no `data:` line, or only `data:` lines whose trimmed content is empty)
invokes no handler, and the parser keeps processing the surrounding blocks
unchanged. -/
theorem emitEvent_empty_payload_discarded (block : List Char)
    (h : (blockFields block).2 = []) (before after : List (List Char)) :
    emitEvent block = none ∧
      (before ++ block :: after).filterMap emitEvent =
        before.filterMap emitEvent ++ after.filterMap emitEvent := by
  have he : emitEvent block = none := by
    unfold emitEvent
    simp [h]
  refine ⟨he, ?_⟩
  rw [List.filterMap_append, List.filterMap_cons, he]

theorem emitEvent_empty_payload_discarded_witness :
    (blockFields (chars "event:chunk")).2 = [] ∧
    (emitEvent (chars "event:chunk") = none ∧
      ([chars "event:start\ndata:\x7b\"duration\":1.5\x7d"] ++
          chars "event:chunk" :: [chars "event:error\ndata:\x7b\"message\":\"x\"\x7d"]).filterMap
          emitEvent =
        [chars "event:start\ndata:\x7b\"duration\":1.5\x7d"].filterMap emitEvent ++
          [chars "event:error\ndata:\x7b\"message\":\"x\"\x7d"].filterMap emitEvent) :=
  ⟨rfl, emitEvent_empty_payload_discarded (chars "event:chunk") rfl _ _⟩

/-- C4: a block whose non-empty accumulated data payload is not valid JSON
invokes no handler, raises nothing to the caller (`emitEvent` is total and
yields `none`), and the parser keeps processing the surrounding blocks of the
same stream unchanged. -/
theorem emitEvent_invalid_json_discarded (block : List Char)
    (hne : (blockFields block).2 ≠ [])
    (hbad : jsonParse (blockFields block).2 = none)
    (before after : List (List Char)) :
    emitEvent block = none ∧
      (before ++ block :: after).filterMap emitEvent =
        before.filterMap emitEvent ++ after.filterMap emitEvent := by
  have he : emitEvent block = none := by
    unfold emitEvent
    simp [hne, hbad]
  refine ⟨he, ?_⟩
  rw [List.filterMap_append, List.filterMap_cons, he]

theorem emitEvent_invalid_json_discarded_witness :
    (blockFields (chars "event:chunk\ndata:\x7boops")).2 ≠ [] ∧
    jsonParse (blockFields (chars "event:chunk\ndata:\x7boops")).2 = none ∧
    (emitEvent (chars "event:chunk\ndata:\x7boops") = none ∧
      ([chars "event:start\ndata:\x7b\"duration\":1.5\x7d"] ++
          chars "event:chunk\ndata:\x7boops" :: [chars "event:error\ndata:\x7b\"message\":\"x\"\x7d"]).filterMap
          emitEvent =
        [chars "event:start\ndata:\x7b\"duration\":1.5\x7d"].filterMap emitEvent ++
          [chars "event:error\ndata:\x7b\"message\":\"x\"\x7d"].filterMap emitEvent) :=
  ⟨by decide, rfl,
    emitEvent_invalid_json_discarded (chars "event:chunk\ndata:\x7boops") (by decide) rfl _ _⟩

/-! ### C5: the Start → Chunk* → terminal ordering discipline -/

/-- The `index`/`total` fields of a chunk payload, when both are whole JSON
numbers. -/
def chunkIndexTotal (j : Json) : Option (Int × Int) :=
  match jsGetField j (chars "index"), jsGetField j (chars "total") with
  | some (.num i 0), some (.num t 0) => some (i, t)
  | _, _ => none

/-- Zero or more `Chunk` events with strictly increasing index continuing at
`i` and running up to `total - 1`, followed by exactly one terminal
`Complete` or `Error` event and nothing after it. -/
def disciplineTail (i : Nat) : List HandlerCall → Bool
  | [.onComplete _] => true
  | [.onError _] => true
  | .onChunk j :: rest =>
    (match chunkIndexTotal j with
     | some (idx, tot) =>
       decide (idx = (i : Int)) && decide ((i : Int) + rest.length = tot)
     | none => false)
    && disciplineTail (i + 1) rest
  | _ => false

/-- The §3 `StreamEvent` ordering discipline: at most one `Start` first, then
chunks with strictly increasing index `0 .. total-1`, then exactly one
terminal `Complete` or `Error` event and nothing after it. -/
def disciplineOK : List HandlerCall → Bool
  | .onStart _ :: rest => disciplineTail 0 rest
  | calls => disciplineTail 0 calls

/-- C5 as stated is false: the parser does not enforce the ordering
discipline.  On a stream whose blocks arrive as `complete` then `start`, the
handler sequence is `Complete` followed by `Start` — an event after the
terminal one. -/
theorem transcribeStream_ordering_counterexample :
    disciplineOK (transcribeStreamCalls
      [chars "event:complete\ndata:\x7b\"transcript\":\"a\",\"duration\":1.5\x7d\n\nevent:start\ndata:\x7b\"duration\":1.5\x7d\n\n"]) = false := rfl

/-- C5 (amended): the parser emits exactly the decoded events of the stream's
blank-line-terminated blocks, in block order, however the reads are split; it
preserves but does not enforce the ordering discipline.  Whenever the decoded
block sequence of the whole content satisfies the discipline — at most one
`Start` first, then chunks with strictly increasing index from 0 up to
`total - 1`, then exactly one terminal `Complete` or `Error` — the sequence
delivered to the handlers satisfies it too. -/
theorem transcribeStream_ordering_preserved (reads : List (List Char))
    (h : disciplineOK ((extractBlocks reads.flatten).1.filterMap emitEvent) = true) :
    disciplineOK (transcribeStreamCalls reads) = true := by
  show disciplineOK (transcribeStreamLoop [] reads) = true
  rw [transcribeStreamLoop_eq_flatten [] rfl reads]
  simpa using h

theorem transcribeStream_ordering_preserved_witness :
    disciplineOK ((extractBlocks (List.flatten
        [chars "event:start\ndata:\x7b\"duration\":1.5\x7d\n\nevent:chunk\ndata:\x7b\"index\":0,\"total\":1,\"text\":\"a\"\x7d\n\nevent:complete\ndata:\x7b\"transcript\":\"a\",\"duration\":1.5\x7d\n\n"])).1.filterMap
        emitEvent) = true ∧
    disciplineOK (transcribeStreamCalls
      [chars "event:start\ndata:\x7b\"duration\":1.5\x7d\n\nevent:chunk\ndata:\x7b\"index\":0,\"total\":1,\"text\":\"a\"\x7d\n\nevent:complete\ndata:\x7b\"transcript\":\"a\",\"duration\":1.5\x7d\n\n"]) = true :=
  ⟨rfl, transcribeStream_ordering_preserved _ rfl⟩

/-- C10: implicit end-of-stream truncation — when the stream's final content
is not terminated by a blank line before the stream signals completion, the
trailing buffered content is discarded silently: a final read `t` that leaves
no blank-line separator in the buffer produces no handler invocation, while
all earlier blank-line-terminated blocks are processed unchanged. -/
theorem transcribeStream_trailing_discarded (reads : List (List Char)) (t : List Char)
    (h : findBlankLine ((extractBlocks reads.flatten).2 ++ t) = none) :
    transcribeStreamCalls (reads ++ [t]) = transcribeStreamCalls reads := by
  show transcribeStreamLoop [] (reads ++ [t]) = transcribeStreamLoop [] reads
  rw [transcribeStreamLoop_eq_flatten [] rfl, transcribeStreamLoop_eq_flatten [] rfl]
  rw [List.flatten_append, List.flatten_cons, List.flatten_nil, List.append_nil,
      List.nil_append, List.nil_append,
      extractBlocks_append reads.flatten t, extractBlocks_none h]
  simp [List.filterMap_append]

theorem transcribeStream_trailing_discarded_witness :
    findBlankLine ((extractBlocks (List.flatten
        [chars "event:error\ndata:\x7b\"message\":\"x\"\x7d\n\n"])).2 ++
      chars "event:complete\ndata:\x7b\"transcript\"") = none ∧
    transcribeStreamCalls ([chars "event:error\ndata:\x7b\"message\":\"x\"\x7d\n\n"] ++
        [chars "event:complete\ndata:\x7b\"transcript\""]) =
      transcribeStreamCalls [chars "event:error\ndata:\x7b\"message\":\"x\"\x7d\n\n"] :=
  ⟨rfl, transcribeStream_trailing_discarded _ _ rfl⟩

/-! ## Backend Client request/response handling: `healthCheck`, `transcribe`,
`summarize` (claims C6–C8) -/

/-- An HTTP response as seen through `fetch`: status code and body text. -/
structure JsResponse where
  status : Nat
  body : List Char
deriving DecidableEq

/-- Model of `Response.ok`: the status is in the inclusive range 200–299. -/
def JsResponse.isOk (r : JsResponse) : Bool :=
  decide (200 ≤ r.status) && decide (r.status ≤ 299)

/-- Outcome of a `fetch` call: the promise either rejects (network failure)
or resolves to a response. -/
inductive FetchOutcome where
  | networkFailure
  | resolved (r : JsResponse)
deriving DecidableEq

/-- Model of `healthCheck`:

```
try {
  const response = await fetch(`${this.baseUrl}/health`);
  return response.ok;
} catch {
  return false;
}
```

The only statement that can throw inside the `try` is the awaited `fetch`
(a rejected promise on network failure); the `catch` turns it into `false`.
The result is `Except` so that "never raises" is expressible. -/
def healthCheck (o : FetchOutcome) : Except (List Char) Bool :=
  match o with
  | .networkFailure => .ok false
  | .resolved r => .ok r.isOk

/-- C6: `healthCheck` never throws — for every outcome of the underlying
`GET /health` request (network failure or any HTTP response) it resolves to a
boolean, `false` on network failure or non-success status, and `true` exactly
when the response status is successful (200–299). -/
theorem healthCheck_never_throws (o : FetchOutcome) :
    ∃ b : Bool, healthCheck o = .ok b ∧
      (b = true ↔ ∃ r : JsResponse, o = .resolved r ∧ r.isOk = true) := by
  cases o with
  | networkFailure =>
    refine ⟨false, rfl, ?_⟩
    simp [healthCheck]
  | resolved r =>
    refine ⟨r.isOk, rfl, ?_⟩
    constructor
    · intro hb
      exact ⟨r, rfl, hb⟩
    · rintro ⟨r', heq, hok⟩
      cases heq
      exact hok

/-- Model of `transcribe` once the `fetch` promise has resolved:

```
if (!response.ok) {
  const error = await response.text();
  throw new Error(error || `Transcription failed: ${response.status}`);
}
return response.json();
```

A thrown `Error` is `.error` carrying its message; `response.json()` parses
the body text (and itself throws a `SyntaxError` on invalid JSON). -/
def transcribe (response : JsResponse) : Except (List Char) Json :=
  if response.isOk then
    match jsonParse response.body with
    | some j => .ok j
    | none => .error (chars "SyntaxError: unexpected JSON input")
  else
    .error (if response.body = [] then
              chars "Transcription failed: " ++ (toString response.status).toList
            else response.body)

/-- C7: on every non-success HTTP response `transcribe` throws an error whose
message equals the response body text when that text is non-empty, and
otherwise a status-derived message containing the HTTP status; on a success
response it returns the parsed body. -/
theorem transcribe_response_contract (r : JsResponse) :
    (r.isOk = false → r.body ≠ [] → transcribe r = .error r.body) ∧
    (r.isOk = false → r.body = [] →
      transcribe r = .error (chars "Transcription failed: " ++ (toString r.status).toList)) ∧
    (∀ j : Json, r.isOk = true → jsonParse r.body = some j → transcribe r = .ok j) := by
  refine ⟨?_, ?_, ?_⟩
  · intro hok hbody
    unfold transcribe
    rw [hok]
    simp [hbody]
  · intro hok hbody
    unfold transcribe
    rw [hok]
    simp [hbody]
  · intro j hok hparse
    unfold transcribe
    rw [hok]
    simp [hparse]

theorem transcribe_response_contract_witness :
    (JsResponse.isOk ⟨500, chars "backend exploded"⟩ = false ∧
      transcribe ⟨500, chars "backend exploded"⟩ = .error (chars "backend exploded")) ∧
    (JsResponse.isOk ⟨500, []⟩ = false ∧
      transcribe ⟨500, []⟩ = .error (chars "Transcription failed: 500")) ∧
    (JsResponse.isOk ⟨200, chars "\x7b\"transcript\":\"a\",\"duration\":1.5\x7d"⟩ = true ∧
      transcribe ⟨200, chars "\x7b\"transcript\":\"a\",\"duration\":1.5\x7d"⟩ =
        .ok (.obj [(chars "transcript", .str (chars "a")),
                   (chars "duration", .num 15 (-1))])) :=
  ⟨⟨by decide, (transcribe_response_contract _).1 (by decide) (by decide)⟩,
   ⟨by decide, (transcribe_response_contract _).2.1 (by decide) rfl⟩,
   ⟨by decide, (transcribe_response_contract _).2.2 _ (by decide) rfl⟩⟩

/-- JS `argument || defaultString` for an optional string argument: an absent
argument (`undefined`) and the empty string are both falsy and replaced by
the default. -/
def jsOrDefault (v : Option (List Char)) (d : List Char) : List Char :=
  match v with
  | none => d
  | some s => if s = [] then d else s

/-- The object `summarize` serializes into its request body:

```
JSON.stringify({
  transcript,
  prompt: prompt || "",
  style: style || "concise",
  length: length || "short",
  language: language || "",
})
```
-/
def summarizeBody (transcript : List Char)
    (prompt style length language : Option (List Char)) : Json :=
  .obj [(chars "transcript", .str transcript),
        (chars "prompt", .str (jsOrDefault prompt [])),
        (chars "style", .str (jsOrDefault style (chars "concise"))),
        (chars "length", .str (jsOrDefault length (chars "short"))),
        (chars "language", .str (jsOrDefault language []))]

/-- C8 as stated is false: the empty string is not placed verbatim.  With
`style = ""` the request body's `style` field is the substituted default
`"concise"`, not `""` (the `style || "concise"` fallback treats `""` as
falsy). -/
theorem summarize_style_not_verbatim :
    jsGetField (summarizeBody (chars "t") none (some []) none none) (chars "style")
      ≠ some (.str []) := by
  have h : jsGetField (summarizeBody (chars "t") none (some []) none none) (chars "style")
      = some (.str (chars "concise")) := rfl
  rw [h, show chars "concise" = ['c', 'o', 'n', 'c', 'i', 's', 'e'] from rfl]
  intro hx
  simp at hx

/-- C8 (amended): for every non-empty style and length argument — including
values outside the observed enumerations — `summarize` places the given
strings verbatim, without validation, into the `style` and `length` fields of
the JSON request body; the empty string (like an absent argument) is falsy
and replaced by the defaults `"concise"` / `"short"`. -/
theorem summarize_style_length_verbatim (transcript : List Char)
    (prompt language : Option (List Char)) (style length : List Char)
    (hstyle : style ≠ []) (hlength : length ≠ []) :
    jsGetField (summarizeBody transcript prompt (some style) (some length) language)
        (chars "style") = some (.str style) ∧
    jsGetField (summarizeBody transcript prompt (some style) (some length) language)
        (chars "length") = some (.str length) := by
  constructor <;>
    simp [summarizeBody, jsGetField, jsOrDefault, hstyle, hlength, List.find?, chars]

theorem summarize_style_length_verbatim_witness :
    chars "not_an_observed_style" ≠ [] ∧ chars "huge" ≠ [] ∧
    (jsGetField (summarizeBody (chars "t") none (some (chars "not_an_observed_style"))
        (some (chars "huge")) none) (chars "style") =
          some (.str (chars "not_an_observed_style")) ∧
     jsGetField (summarizeBody (chars "t") none (some (chars "not_an_observed_style"))
        (some (chars "huge")) none) (chars "length") = some (.str (chars "huge"))) :=
  ⟨by decide, by decide,
    summarize_style_length_verbatim _ _ _ _ _ (by decide) (by decide)⟩

/-! ## Recorder/Uploader size gate (claim C9) -/

/-- A selected file: only name and byte size matter to the size gate. -/
structure JsFile where
  name : List Char
  size : Nat
deriving DecidableEq

/-- The slice of `Index` page state touched by `handleFileSelect`. -/
structure UiState where
  audioFile : Option JsFile
  transcript : List Char
  summary : List Char
deriving DecidableEq

/-- The `handleFileSelect` callback of the Index page:

```
const sizeMb = file.size / (1024 * 1024);
if (sizeMb > MAX_UPLOAD_MB) {
  toast({ title: "File too large", ... });
  return false;
}
setAudioFile(file);
setTranscript("");
setSummary("");
return true;
```

The comparison `file.size / (1024 * 1024) > MAX_UPLOAD_MB` is modelled
exactly over the rationals: `size / 1048576 > maxMb ↔ size > maxMb * 1048576`. -/
def handleFileSelect (maxUploadMb : Nat) (st : UiState) (file : JsFile) :
    Bool × UiState :=
  if file.size > maxUploadMb * (1024 * 1024) then (false, st)
  else (true, { st with audioFile := some file, transcript := [], summary := [] })

/-- Note that `handleTranscribe` passes only the stored `audioFile` to
`api.transcribe`; this is the file a Backend Client transcription call would
use. -/
def transcribeRequestFile (st : UiState) : Option JsFile := st.audioFile

/-- Model of `AudioRecorder.handleFileUpload`: feed the chosen file to `onFileSelect`
and keep it as `uploadedFile` only when accepted. -/
def handleFileUpload (maxUploadMb : Nat) (st : UiState)
    (uploadedFile : Option JsFile) (eTargetFiles : List JsFile) :
    UiState × Option JsFile :=
  match eTargetFiles.head? with
  | none => (st, uploadedFile)
  | some file =>
    let p := handleFileSelect maxUploadMb st file
    if p.1 then (p.2, some file) else (p.2, none)

/-- C9: a selected file whose size strictly exceeds the configured maximum
upload size is rejected by the uploader's file-select handler with the
boolean `false` (no exception), the UI state is untouched, and no Backend
Client transcription call can be made with that file (the stored `audioFile`
never becomes it); a file at or below the limit is accepted with `true`. -/
theorem handleFileSelect_size_gate (maxUploadMb : Nat) (st : UiState) (file : JsFile) :
    (file.size > maxUploadMb * (1024 * 1024) →
      handleFileSelect maxUploadMb st file = (false, st) ∧
      (transcribeRequestFile st ≠ some file →
        transcribeRequestFile (handleFileSelect maxUploadMb st file).2 ≠ some file)) ∧
    (file.size ≤ maxUploadMb * (1024 * 1024) →
      handleFileSelect maxUploadMb st file =
        (true, { st with audioFile := some file, transcript := [], summary := [] })) := by
  constructor
  · intro hgt
    have heq : handleFileSelect maxUploadMb st file = (false, st) := by
      unfold handleFileSelect
      simp [hgt]
    exact ⟨heq, by rw [heq]; exact id⟩
  · intro hle
    unfold handleFileSelect
    rw [if_neg (by omega)]

theorem handleFileSelect_size_gate_witness :
    ((⟨chars "big.webm", 60 * 1024 * 1024⟩ : JsFile).size > 50 * (1024 * 1024) ∧
      (handleFileSelect 50 ⟨none, [], []⟩ ⟨chars "big.webm", 60 * 1024 * 1024⟩ =
          (false, ⟨none, [], []⟩) ∧
        (transcribeRequestFile ⟨none, [], []⟩ ≠ some ⟨chars "big.webm", 60 * 1024 * 1024⟩ →
          transcribeRequestFile
              (handleFileSelect 50 ⟨none, [], []⟩ ⟨chars "big.webm", 60 * 1024 * 1024⟩).2 ≠
            some ⟨chars "big.webm", 60 * 1024 * 1024⟩))) ∧
    ((⟨chars "ok.webm", 50 * 1024 * 1024⟩ : JsFile).size ≤ 50 * (1024 * 1024) ∧
      handleFileSelect 50 ⟨none, [], []⟩ ⟨chars "ok.webm", 50 * 1024 * 1024⟩ =
        (true, ⟨some ⟨chars "ok.webm", 50 * 1024 * 1024⟩, [], []⟩)) :=
  ⟨⟨by decide, (handleFileSelect_size_gate 50 ⟨none, [], []⟩ _).1 (by decide)⟩,
   ⟨by decide, (handleFileSelect_size_gate 50 ⟨none, [], []⟩ _).2 (by decide)⟩⟩

end Scribe
